import Mathlib

/-!
Shallow embedding of the authentication decision engine of the
biometric-test-task repository (NestJS + Prisma GraphQL auth API).

Persistent data: the Prisma `User` model (README, prisma schema):
  id String @id @default(uuid()); email String @unique; password String;
  biometricKey String? @unique; createdAt; updatedAt.

The user store (`src/src/users/users.service.ts`) exposes findByEmail,
findById, findByBiometricKey, create (bcrypt-hashes the password, cost 10,
then inserts) and updateBiometricKey (prisma update by id).  Prisma
`findUnique` is modelled as `List.find?`; prisma `create`/`update` enforce
the unique constraints of the schema and fail with a record-not-found error when
the where clause of an update matches no row, so both are modelled as returning an
`Except` together with the (possibly updated) store.

The auth service itself (`auth.service.ts`) is absent from the corpus; its
four operations are modelled from the spec (§4.1) with every observable
detail pinned by its unit tests (`src/unnamed/part_000`): register checks
findByEmail then creates; login checks findByEmail then bcrypt-compares;
biometricLogin checks findByBiometricKey; addBiometricKey checks
findByBiometricKey (for the new key only) then updates; each success signs
a JWT (secret irrelevant here, expiresIn of one day per the test
module) and returns the stored user record itself, password field
included, as the tests assert with `toEqual(mockUser)`.

Timestamps and token clocks are threaded as an explicit `now : Nat`
(seconds).  bcrypt hashing is salted and opaque; it is modelled as an
injective tagging function together with the comparison the engine uses.
-/

deriving instance DecidableEq for Except

/-- Model of `bcrypt.hash(password, 10)` (users.service.ts, create):
a one-way salted hash, abstracted as a deterministic tagging function. -/
def hashPassword (p : String) : String := "$2b$10$" ++ p

/-- Model of `bcrypt.compare(password, hash)`: true exactly when the hash
is the stored hash of the password. -/
def bcryptCompare (p h : String) : Bool := h == hashPassword p

/-- The Prisma `User` row (README database schema). -/
structure User where
  id : String
  email : String
  password : String
  biometricKey : Option String
  createdAt : Nat
  updatedAt : Nat
deriving Repr, DecidableEq

/-- The user store: the `User` table plus a creation counter feeding the
uuid generator. -/
structure Store where
  users : List User
  nextId : Nat
deriving Repr, DecidableEq

def emptyStore : Store := ⟨[], 0⟩

/-- Modelled from the spec: `id` is "opaque unique identifier, generated at
creation" (`@default(uuid())` in the schema); the uuid source is modelled
as an injective function of the creation counter of the store. -/
def idOf (m : Nat) : String := String.mk (List.replicate m 'u')

/-- `findByEmail` (users.service.ts): prisma findUnique on the email key. -/
def findByEmail (s : Store) (email : String) : Option User :=
  s.users.find? (fun u => u.email == email)

/-- `findById` (users.service.ts): prisma findUnique on the id key. -/
def findById (s : Store) (id : String) : Option User :=
  s.users.find? (fun u => u.id == id)

/-- `findByBiometricKey` (users.service.ts): prisma findUnique on the
biometricKey key. -/
def findByBiometricKey (s : Store) (key : String) : Option User :=
  s.users.find? (fun u => u.biometricKey == some key)

/-- Failures surfaced by the Prisma layer: unique-constraint violation and
update-on-missing-record (Prisma error P2025). -/
inductive StoreError
  | uniqueViolation
  | recordNotFound
deriving Repr, DecidableEq

/-- `create` (users.service.ts): bcrypt-hash the password and insert a row
with a fresh uuid; the `@unique` marker on email makes the insert fail on
a duplicate email.  biometricKey starts absent. -/
def create (s : Store) (now : Nat) (email password : String) :
    Except StoreError User × Store :=
  if s.users.any (fun u => u.email == email) then
    (.error .uniqueViolation, s)
  else
    let u : User := ⟨idOf s.nextId, email, hashPassword password, none, now, now⟩
    (.ok u, ⟨s.users ++ [u], s.nextId + 1⟩)

/-- `updateBiometricKey` (users.service.ts): prisma update by id setting
biometricKey.  Fails with record-not-found when no row has the id, and
with a unique violation when a different row already holds the key. -/
def updateBiometricKey (s : Store) (now : Nat) (userId key : String) :
    Except StoreError User × Store :=
  match findById s userId with
  | none => (.error .recordNotFound, s)
  | some u =>
    if s.users.any (fun v => v.id != userId && v.biometricKey == some key) then
      (.error .uniqueViolation, s)
    else
      let u2 : User := { u with biometricKey := some key, updatedAt := now }
      (.ok u2, { s with users := s.users.map (fun v => if v.id == userId then u2 else v) })

/-- Engine error kinds: ConflictException, UnauthorizedException, and a
store-layer failure that the engine does not classify (it propagates). -/
inductive AuthError
  | conflict
  | unauthorized
  | storeFailure (e : StoreError)
deriving Repr, DecidableEq

/-- Decoded session token: subject, issued-at, expiry (JwtModule signs with
an expiresIn of 1d, src/unnamed/part_000 lines 40-43). -/
structure Token where
  sub : String
  iat : Nat
  exp : Nat
deriving Repr, DecidableEq

/-- One day in seconds (the expiresIn of 1d). -/
def tokenTtl : Nat := 86400

/-- Token issuance: subject bound to the user id, fixed 1-day expiry. -/
def signToken (now : Nat) (sub : String) : Token := ⟨sub, now, now + tokenTtl⟩

/-- The `{ token, user }` pair returned by every successful operation. -/
structure AuthResponse where
  token : Token
  user : User
deriving Repr, DecidableEq

/-- Modelled from the spec: `register` of the absent auth.service.ts.  Look
up by email; found means ConflictException; otherwise create and sign.  The
returned user is the created row itself (test: result.user toEqual
mockUser, password included). -/
def register (s : Store) (now : Nat) (email password : String) :
    Except AuthError AuthResponse × Store :=
  match findByEmail s email with
  | some _ => (.error .conflict, s)
  | none =>
    match create s now email password with
    | (.error e, s2) => (.error (.storeFailure e), s2)
    | (.ok u, s2) => (.ok ⟨signToken now u.id, u⟩, s2)

/-- Modelled from the spec: `login` of the absent auth.service.ts.  Look up
by email; absent or bcrypt mismatch means UnauthorizedException; match
signs a token for the found user. -/
def login (s : Store) (now : Nat) (email password : String) :
    Except AuthError AuthResponse × Store :=
  match findByEmail s email with
  | none => (.error .unauthorized, s)
  | some u =>
    if bcryptCompare password u.password then
      (.ok ⟨signToken now u.id, u⟩, s)
    else
      (.error .unauthorized, s)

/-- Modelled from the spec: `biometricLogin` of the absent auth.service.ts.
Look up by biometricKey; absent means UnauthorizedException; present signs
a token for the holder.  No password is consulted. -/
def biometricLogin (s : Store) (now : Nat) (key : String) :
    Except AuthError AuthResponse × Store :=
  match findByBiometricKey s key with
  | none => (.error .unauthorized, s)
  | some u => (.ok ⟨signToken now u.id, u⟩, s)

/-- Modelled from the spec: `addBiometricKey` of the absent auth.service.ts.
Look up any holder of the new key; one exists means ConflictException
(regardless of whether it is the caller); otherwise updateBiometricKey and
sign.  The target user is never looked up by id first (test lines 165-176
show only the two store calls). -/
def addBiometricKey (s : Store) (now : Nat) (userId key : String) :
    Except AuthError AuthResponse × Store :=
  match findByBiometricKey s key with
  | some _ => (.error .conflict, s)
  | none =>
    match updateBiometricKey s now userId key with
    | (.error e, s2) => (.error (.storeFailure e), s2)
    | (.ok u, s2) => (.ok ⟨signToken now u.id, u⟩, s2)

/-- The four engine operations as a syntax, for reachability statements. -/
inductive Op
  | register (email password : String)
  | login (email password : String)
  | biometricLogin (key : String)
  | addBiometricKey (userId key : String)
deriving Repr, DecidableEq

def runOp (s : Store) (now : Nat) : Op → Except AuthError AuthResponse × Store
  | .register e p => register s now e p
  | .login e p => login s now e p
  | .biometricLogin k => biometricLogin s now k
  | .addBiometricKey uid k => addBiometricKey s now uid k

/-- The store left behind by an operation (failed calls surface the thrown
exception but the store persists). -/
def applyOp (s : Store) (now : Nat) (op : Op) : Store := (runOp s now op).2

/-- Run a timestamped sequence of operations left to right. -/
def execFrom (s : Store) : List (Nat × Op) → Store
  | [] => s
  | x :: rest => execFrom (applyOp s x.1 x.2) rest

/-- Stores reachable from the empty store. -/
def execOps (l : List (Nat × Op)) : Store := execFrom emptyStore l

/-- At most one user per email (schema: email String @unique). -/
def emailUnique (s : Store) : Prop := (s.users.map User.email).Nodup

/-- At most one user per non-null biometricKey (schema: biometricKey
String? @unique). -/
def keyUnique (s : Store) : Prop := (s.users.filterMap User.biometricKey).Nodup

/-- At most one user per id (schema: id String @id). -/
def idUnique (s : Store) : Prop := (s.users.map User.id).Nodup

/-- Every stored id was produced by the uuid generator at a past counter
value: the next generated id is fresh. -/
def idsFresh (s : Store) : Prop := ∀ u ∈ s.users, ∃ m, m < s.nextId ∧ u.id = idOf m

def storeInv (s : Store) : Prop := emailUnique s ∧ keyUnique s

def fullInv (s : Store) : Prop := emailUnique s ∧ keyUnique s ∧ idUnique s ∧ idsFresh s

/-- The GraphQL `User` object type (src/unnamed/part_000 lines 178-198):
the password field is deliberately excluded from the GraphQL response. -/
structure GqlUser where
  id : String
  email : String
  biometricKey : Option String
  createdAt : Nat
  updatedAt : Nat
deriving Repr, DecidableEq

/-- Projection of a stored user onto the exposed GraphQL object type. -/
def toGql (u : User) : GqlUser := ⟨u.id, u.email, u.biometricKey, u.createdAt, u.updatedAt⟩

/-- Concrete fixture: the row created by registering a@x at time 0. -/
def demoUser : User := ⟨idOf 0, "a@x", hashPassword "pw", none, 0, 0⟩

/-- Concrete fixture: the store after that registration. -/
def demoStore : Store := (register emptyStore 0 "a@x" "pw").2

/-- Concrete fixture: the same row after enrolling key K1 at time 1. -/
def demoUserK : User := ⟨idOf 0, "a@x", hashPassword "pw", some "K1", 0, 1⟩

/-- Concrete fixture: the store after that enrollment. -/
def demoStoreK : Store := (addBiometricKey demoStore 1 (idOf 0) "K1").2

/-- Concrete fixture: a response as produced by a login at time 8. -/
def demoResp : AuthResponse := ⟨signToken 8 demoUser.id, demoUser⟩

/-- Concrete replay: register, then enroll K1. -/
def replayOps : List (Nat × Op) :=
  [(0, .register "a@x" "pw"), (1, .addBiometricKey (idOf 0) "K1")]

/-- Concrete replay: register, enroll K1, then enroll K2 for the same user. -/
def replayOps2 : List (Nat × Op) := replayOps ++ [(2, .addBiometricKey (idOf 0) "K2")]

/-! ## Helper lemmas -/

theorem idOf_inj {m n : Nat} (h : idOf m = idOf n) : m = n := by
  have h2 : List.replicate m 'u' = List.replicate n 'u' := congrArg String.data h
  simpa using congrArg List.length h2

theorem any_false_of_find?_none {α : Type} {p : α → Bool} {l : List α}
    (h : l.find? p = none) : l.any p = false := by
  rw [List.any_eq_false]
  intro x hx
  simpa using List.find?_eq_none.mp h x hx

theorem not_pred_of_find?_none {α : Type} {p : α → Bool} {l : List α}
    (h : l.find? p = none) : ∀ x ∈ l, ¬ p x = true :=
  List.find?_eq_none.mp h

theorem findById_some {s : Store} {uid : String} {u : User}
    (h : findById s uid = some u) : u ∈ s.users ∧ u.id = uid := by
  have h2 : s.users.find? (fun v => v.id == uid) = some u := h
  exact ⟨List.mem_of_find?_eq_some h2, by simpa using List.find?_some h2⟩

theorem findByEmail_some {s : Store} {e : String} {u : User}
    (h : findByEmail s e = some u) : u ∈ s.users ∧ u.email = e := by
  have h2 : s.users.find? (fun v => v.email == e) = some u := h
  exact ⟨List.mem_of_find?_eq_some h2, by simpa using List.find?_some h2⟩

theorem findByBiometricKey_some {s : Store} {k : String} {u : User}
    (h : findByBiometricKey s k = some u) : u ∈ s.users ∧ u.biometricKey = some k := by
  have h2 : s.users.find? (fun v => v.biometricKey == some k) = some u := h
  exact ⟨List.mem_of_find?_eq_some h2, by simpa using List.find?_some h2⟩

/-! ## C2: the register contract -/

/-- C2.  Register with an already-used email fails with Conflict and leaves
the store untouched; register with a fresh email creates the row with the
bcrypt hash, a fresh id and no biometric key, appends it to the store, and
returns it together with a token whose subject is the new id. -/
theorem register_contract : ∀ (s : Store) (now : Nat) (e p : String),
    ((∃ u, findByEmail s e = some u) → register s now e p = (.error .conflict, s)) ∧
    (findByEmail s e = none →
      ∃ nu, register s now e p = (.ok ⟨signToken now nu.id, nu⟩, ⟨s.users ++ [nu], s.nextId + 1⟩) ∧
        nu.email = e ∧ nu.password = hashPassword p ∧ nu.biometricKey = none ∧
        nu.id = idOf s.nextId) := by
  intro s now e p
  constructor
  · rintro ⟨u, hu⟩
    simp [register, hu]
  · intro h
    have ha : s.users.any (fun u => u.email == e) = false :=
      any_false_of_find?_none (by simpa [findByEmail] using h)
    refine ⟨⟨idOf s.nextId, e, hashPassword p, none, now, now⟩, ?_, rfl, rfl, rfl, rfl⟩
    simp [register, h, create, ha]

/-- C2 witness: in the concrete one-user store, re-registering a@x
conflicts and registering b@x creates the expected row. -/
theorem register_contract_witness :
    register demoStore 2 "a@x" "q" = (.error .conflict, demoStore) ∧
    ∃ nu, register demoStore 2 "b@x" "q" =
        (.ok ⟨signToken 2 nu.id, nu⟩, ⟨demoStore.users ++ [nu], demoStore.nextId + 1⟩) ∧
      nu.email = "b@x" ∧ nu.password = hashPassword "q" ∧ nu.biometricKey = none ∧
      nu.id = idOf demoStore.nextId :=
  ⟨(register_contract demoStore 2 "a@x" "q").1 ⟨demoUser, by decide⟩,
   (register_contract demoStore 2 "b@x" "q").2 (by decide)⟩

/-! ## C3: the login contract -/

/-- C3.  Login succeeds exactly when a user with the email exists and the
password bcrypt-verifies against the stored hash, in which case it returns
that user with a token for its id; both failure cases (unknown email,
wrong password) produce the same Unauthorized error. -/
theorem login_contract : ∀ (s : Store) (now : Nat) (e p : String),
    ((∃ r, login s now e p = (.ok r, s)) ↔
      (findByEmail s e).map (fun u => bcryptCompare p u.password) = some true) ∧
    (∀ u, findByEmail s e = some u → bcryptCompare p u.password = true →
      login s now e p = (.ok ⟨signToken now u.id, u⟩, s)) ∧
    ((findByEmail s e).map (fun u => bcryptCompare p u.password) ≠ some true →
      login s now e p = (.error .unauthorized, s)) := by
  intro s now e p
  cases hf : findByEmail s e with
  | none =>
    refine ⟨⟨fun ⟨r, hr⟩ => ?_, fun h => by simp at h⟩, fun u hu => by simp at hu, fun _ => ?_⟩
    · simp [login, hf] at hr
    · simp [login, hf]
  | some u =>
    cases hb : bcryptCompare p u.password with
    | true =>
      refine ⟨⟨fun _ => by simp [hb], fun _ => ?_⟩, fun v hv hbv => ?_, fun h => ?_⟩
      · exact ⟨⟨signToken now u.id, u⟩, by simp [login, hf, hb]⟩
      · have h2 : u = v := by simpa using hv
        subst h2
        simp [login, hf, hbv]
      · simp [hb] at h
    | false =>
      refine ⟨⟨fun ⟨r, hr⟩ => ?_, fun h => by simp [hb] at h⟩, fun v hv hbv => ?_, fun _ => ?_⟩
      · simp [login, hf, hb] at hr
      · have h2 : u = v := by simpa using hv
        subst h2
        simp [hbv] at hb
      · simp [login, hf, hb]

/-- C3 witness: concrete success, wrong-password failure and unknown-email
failure, the two failures carrying the same error kind. -/
theorem login_contract_witness :
    login demoStore 3 "a@x" "pw" = (.ok ⟨signToken 3 demoUser.id, demoUser⟩, demoStore) ∧
    login demoStore 3 "a@x" "bad" = (.error .unauthorized, demoStore) ∧
    login demoStore 3 "b@x" "pw" = (.error .unauthorized, demoStore) :=
  ⟨(login_contract demoStore 3 "a@x" "pw").2.1 demoUser (by decide) (by decide),
   (login_contract demoStore 3 "a@x" "bad").2.2 (by decide),
   (login_contract demoStore 3 "b@x" "pw").2.2 (by decide)⟩

/-! ## C4: addBiometricKey conflicts on any existing holder -/

/-- C4.  Whenever any user currently holds the key — the caller included —
addBiometricKey fails with Conflict, the store is untouched, and the key
stays bound to the existing holder. -/
theorem addBiometricKey_conflict : ∀ (s : Store) (now : Nat) (uid k : String) (u : User),
    findByBiometricKey s k = some u →
    addBiometricKey s now uid k = (.error .conflict, s) ∧
    findByBiometricKey (applyOp s now (.addBiometricKey uid k)) k = some u := by
  intro s now uid k u h
  constructor
  · simp [addBiometricKey, h]
  · simp [applyOp, runOp, addBiometricKey, h]

/-- C4 witness: re-submitting the very key the caller already holds is
itself a Conflict, and the binding survives. -/
theorem addBiometricKey_conflict_witness :
    addBiometricKey demoStoreK 5 (idOf 0) "K1" = (.error .conflict, demoStoreK) ∧
    findByBiometricKey (applyOp demoStoreK 5 (.addBiometricKey (idOf 0) "K1")) "K1" =
      some demoUserK :=
  addBiometricKey_conflict demoStoreK 5 (idOf 0) "K1" demoUserK (by decide)

/-! ## C5: the biometricLogin contract -/

/-- C5.  biometricLogin fails with Unauthorized when no user holds the key
and, when a holder exists, returns exactly that holder together with a
token for its id; no password enters the decision. -/
theorem biometricLogin_contract : ∀ (s : Store) (now : Nat) (k : String),
    (findByBiometricKey s k = none → biometricLogin s now k = (.error .unauthorized, s)) ∧
    (∀ u, findByBiometricKey s k = some u →
      biometricLogin s now k = (.ok ⟨signToken now u.id, u⟩, s)) := by
  intro s now k
  constructor
  · intro h
    simp [biometricLogin, h]
  · intro u h
    simp [biometricLogin, h]

/-- C5 witness: concrete miss and concrete hit on the enrolled store. -/
theorem biometricLogin_contract_witness :
    biometricLogin demoStoreK 6 "K2" = (.error .unauthorized, demoStoreK) ∧
    biometricLogin demoStoreK 6 "K1" =
      (.ok ⟨signToken 6 demoUserK.id, demoUserK⟩, demoStoreK) :=
  ⟨(biometricLogin_contract demoStoreK 6 "K2").1 (by decide),
   (biometricLogin_contract demoStoreK 6 "K1").2 demoUserK (by decide)⟩

/-! ## Characterization lemmas for the two writing operations -/

theorem register_eq (s : Store) (now : Nat) (e p : String) :
    register s now e p =
      match findByEmail s e with
      | some _ => (.error .conflict, s)
      | none =>
        (.ok ⟨signToken now (idOf s.nextId), ⟨idOf s.nextId, e, hashPassword p, none, now, now⟩⟩,
         ⟨s.users ++ [⟨idOf s.nextId, e, hashPassword p, none, now, now⟩], s.nextId + 1⟩) := by
  cases hf : findByEmail s e with
  | some u => simp [register, hf]
  | none =>
    have ha : s.users.any (fun u => u.email == e) = false :=
      any_false_of_find?_none (by simpa [findByEmail] using hf)
    simp [register, hf, create, ha]

theorem addBiometricKey_eq (s : Store) (now : Nat) (uid k : String) :
    addBiometricKey s now uid k =
      match findByBiometricKey s k with
      | some _ => (.error .conflict, s)
      | none =>
        match findById s uid with
        | none => (.error (.storeFailure .recordNotFound), s)
        | some u =>
          (.ok ⟨signToken now u.id, { u with biometricKey := some k, updatedAt := now }⟩,
           { s with users := s.users.map (fun v =>
              if v.id == uid then { u with biometricKey := some k, updatedAt := now } else v) }) := by
  cases hf : findByBiometricKey s k with
  | some u => simp [addBiometricKey, hf]
  | none =>
    cases hid : findById s uid with
    | none => simp [addBiometricKey, hf, updateBiometricKey, hid]
    | some u =>
      have hno : ∀ v ∈ s.users, ¬ (v.biometricKey == some k) = true :=
        not_pred_of_find?_none (by simpa [findByBiometricKey] using hf)
      have ha : s.users.any (fun v => v.id != uid && v.biometricKey == some k) = false := by
        rw [List.any_eq_false]
        intro v hv
        simp only [Bool.and_eq_true, not_and]
        exact fun _ hh => hno v hv hh
      simp [addBiometricKey, hf, updateBiometricKey, hid, ha]

/-! ## C7: failed writers leave the store untouched -/

/-- C7.  Whenever register or addBiometricKey fails — Conflict or a
propagated store error — the store it hands back is exactly the store it
was given: no half-written row survives a failure. -/
theorem noWrites_on_failure : ∀ (s : Store) (now : Nat) (e p uid k : String),
    (∀ err, (register s now e p).1 = .error err → (register s now e p).2 = s) ∧
    (∀ err, (addBiometricKey s now uid k).1 = .error err → (addBiometricKey s now uid k).2 = s) := by
  intro s now e p uid k
  constructor
  · intro err h
    rw [register_eq] at h ⊢
    cases hf : findByEmail s e with
    | some u => rfl
    | none => rw [hf] at h; simp at h
  · intro err h
    rw [addBiometricKey_eq] at h ⊢
    cases hf : findByBiometricKey s k with
    | some u => rfl
    | none =>
      rw [hf] at h
      cases hid : findById s uid with
      | none => rfl
      | some u => rw [hid] at h; simp at h

/-- C7 witness: a concrete Conflict register and a concrete store-error
addBiometricKey both return the untouched store. -/
theorem noWrites_on_failure_witness :
    (register demoStore 7 "a@x" "z").2 = demoStore ∧
    (addBiometricKey demoStore 7 "ghost" "K1").2 = demoStore :=
  ⟨(noWrites_on_failure demoStore 7 "a@x" "z" "ghost" "K1").1 .conflict (by decide),
   (noWrites_on_failure demoStore 7 "a@x" "z" "ghost" "K1").2
     (.storeFailure .recordNotFound) (by decide)⟩

/-! ## C8: tokens of successful operations -/

/-- C8.  Every successful operation returns a token whose decoded subject
is the returned user's id, issued at the call's clock with the fixed 1-day
expiry, so the expiry lies strictly in the future of the issuing instant. -/
theorem token_contract : ∀ (s : Store) (now : Nat) (op : Op) (r : AuthResponse) (s2 : Store),
    runOp s now op = (.ok r, s2) →
    r.token.sub = r.user.id ∧ r.token.iat = now ∧
    r.token.exp = now + tokenTtl ∧ now < r.token.exp := by
  intro s now op r s2 h
  have hshape : ∃ u : User, r = ⟨signToken now u.id, u⟩ := by
    cases op with
    | register e p =>
      rw [runOp, register_eq] at h
      split at h
      · simp at h
      · have h1 := congrArg Prod.fst h
        simp at h1
        exact ⟨⟨idOf s.nextId, e, hashPassword p, none, now, now⟩, h1.symm⟩
    | login e p =>
      rw [runOp] at h
      unfold login at h
      split at h
      · simp at h
      · rename_i u hu
        split at h
        · have h1 := congrArg Prod.fst h
          simp at h1
          exact ⟨u, h1.symm⟩
        · simp at h
    | biometricLogin k =>
      rw [runOp] at h
      unfold biometricLogin at h
      split at h
      · simp at h
      · rename_i u hu
        have h1 := congrArg Prod.fst h
        simp at h1
        exact ⟨u, h1.symm⟩
    | addBiometricKey uid k =>
      rw [runOp, addBiometricKey_eq] at h
      split at h
      · simp at h
      · split at h
        · simp at h
        · rename_i u hu
          have h1 := congrArg Prod.fst h
          simp at h1
          exact ⟨{ u with biometricKey := some k, updatedAt := now }, h1.symm⟩
  obtain ⟨u, hu⟩ := hshape
  subst hu
  refine ⟨rfl, rfl, rfl, ?_⟩
  simp [signToken, tokenTtl]

/-- C8 witness: the concrete login at time 8 carries subject demoUser.id,
issue time 8 and expiry 8 + 86400. -/
theorem token_contract_witness :
    demoResp.token.sub = demoResp.user.id ∧ demoResp.token.iat = 8 ∧
    demoResp.token.exp = 8 + tokenTtl ∧ 8 < demoResp.token.exp :=
  token_contract demoStore 8 (.login "a@x" "pw") demoResp demoStore (by decide)

/-! ## C10: the unclassified failure of addBiometricKey -/

/-- C10 (spec-modelled).  With a target userId no row has and a key no user
holds, addBiometricKey passes its only check and the store-layer update
fails on the missing record; the engine propagates that failure, which is
neither Conflict nor Unauthorized. -/
theorem addBiometricKey_unclassified_failure :
    findById emptyStore "ghost" = none ∧
    findByBiometricKey emptyStore "K" = none ∧
    (addBiometricKey emptyStore 0 "ghost" "K").1 = .error (.storeFailure .recordNotFound) ∧
    AuthError.storeFailure .recordNotFound ≠ .conflict ∧
    AuthError.storeFailure .recordNotFound ≠ .unauthorized := by
  refine ⟨rfl, rfl, rfl, ?_, ?_⟩ <;> decide

/-! ## C1: the password hash in the returned user -/

/-- C1 counterexample.  A successful register hands back the stored row
verbatim: the returned user's password field is exactly the stored bcrypt
hash (as the unit test pins with toEqual(mockUser)), so the engine's
returned User does contain the stored password hash. -/
theorem register_returns_password_hash :
    (register emptyStore 0 "a@x" "pw1").1.map (fun r => r.user.password) =
      .ok (hashPassword "pw1") ∧
    (findByEmail (register emptyStore 0 "a@x" "pw1").2 "a@x").map User.password =
      some (hashPassword "pw1") ∧
    hashPassword "pw1" ≠ "" := by
  refine ⟨rfl, rfl, ?_⟩
  decide

/-- C1 amended.  The user returned by every successful operation is the
stored record itself, password hash included; the hash is kept from the
outside world only by the exposed GraphQL User object type, whose
projection of the returned user is independent of the password field. -/
theorem returned_user_contract : ∀ (s : Store) (now : Nat) (op : Op) (r : AuthResponse)
    (s2 : Store), runOp s now op = (.ok r, s2) →
    (∃ u, u ∈ s2.users ∧ u.id = r.user.id ∧ u.password = r.user.password) ∧
    (∀ p, toGql { r.user with password := p } = toGql r.user) := by
  intro s now op r s2 h
  refine ⟨?_, fun p => rfl⟩
  cases op with
  | register e p =>
    rw [runOp, register_eq] at h
    split at h
    · simp at h
    · have h1 := congrArg Prod.fst h
      have h2 := congrArg Prod.snd h
      simp at h1 h2
      refine ⟨⟨idOf s.nextId, e, hashPassword p, none, now, now⟩, ?_, ?_, ?_⟩
      · rw [← h2]; simp
      · rw [← h1]
      · rw [← h1]
  | login e p =>
    rw [runOp] at h
    unfold login at h
    split at h
    · simp at h
    · rename_i u hu
      split at h
      · have h1 := congrArg Prod.fst h
        have h2 := congrArg Prod.snd h
        simp at h1 h2
        refine ⟨u, ?_, ?_, ?_⟩
        · rw [← h2]; exact List.mem_of_find?_eq_some hu
        · rw [← h1]
        · rw [← h1]
      · simp at h
  | biometricLogin k =>
    rw [runOp] at h
    unfold biometricLogin at h
    split at h
    · simp at h
    · rename_i u hu
      have h1 := congrArg Prod.fst h
      have h2 := congrArg Prod.snd h
      simp at h1 h2
      refine ⟨u, ?_, ?_, ?_⟩
      · rw [← h2]; exact List.mem_of_find?_eq_some hu
      · rw [← h1]
      · rw [← h1]
  | addBiometricKey uid k =>
    rw [runOp, addBiometricKey_eq] at h
    split at h
    · simp at h
    · split at h
      · simp at h
      · rename_i u hu
        have h1 := congrArg Prod.fst h
        have h2 := congrArg Prod.snd h
        simp at h1 h2
        have hpu : u.id = uid := (findById_some hu).2
        refine ⟨{ u with biometricKey := some k, updatedAt := now }, ?_, ?_, ?_⟩
        · rw [← h2]
          exact List.mem_map.mpr ⟨u, (findById_some hu).1, by simp [hpu]⟩
        · rw [← h1]
        · rw [← h1]

/-- C1 amended witness: the concrete login result carries the stored hash
and its GraphQL projection forgets the password field. -/
theorem returned_user_contract_witness :
    (∃ u, u ∈ demoStore.users ∧ u.id = demoResp.user.id ∧
      u.password = demoResp.user.password) ∧
    (∀ p, toGql { demoResp.user with password := p } = toGql demoResp.user) :=
  returned_user_contract demoStore 8 (.login "a@x" "pw") demoResp demoStore (by decide)

/-! ## C9: biometricKey transitions -/

/-- C9 counterexample.  After the replay register, enroll K1, a further
addBiometricKey with the fresh key K2 for the same user succeeds and
replaces the already-set key: the transition set-K1 to set-K2 happens, so
absent-to-set is not the only possible transition. -/
theorem biometricKey_replaced :
    (findById (execOps replayOps) (idOf 0)).map User.biometricKey = some (some "K1") ∧
    (runOp (execOps replayOps) 2 (.addBiometricKey (idOf 0) "K2")).1.isOk = true ∧
    (findById (execOps replayOps2) (idOf 0)).map User.biometricKey = some (some "K2") ∧
    ("K1" : String) ≠ "K2" := by
  refine ⟨rfl, rfl, rfl, ?_⟩
  decide

/-- C9 amended.  No operation ever unsets a biometricKey: a user whose key
is set still has a user record with their id and a set (possibly
different) key after any operation; the only way the key changes is
addBiometricKey replacing it with an unheld key. -/
theorem biometricKey_never_removed : ∀ (s : Store) (now : Nat) (op : Op) (u : User),
    u ∈ s.users → u.biometricKey ≠ none →
    ∃ v, v ∈ (applyOp s now op).users ∧ v.id = u.id ∧ v.biometricKey ≠ none := by
  intro s now op u hmem hkey
  cases op with
  | register e p =>
    rw [applyOp, runOp, register_eq]
    cases hf : findByEmail s e with
    | some w => exact ⟨u, hmem, rfl, hkey⟩
    | none => exact ⟨u, by simp [hmem], rfl, hkey⟩
  | login e p =>
    have hs : (login s now e p).2 = s := by
      unfold login
      cases hf : findByEmail s e with
      | none => rfl
      | some w => by_cases hb : bcryptCompare p w.password <;> simp [hb]
    rw [applyOp, runOp, hs]
    exact ⟨u, hmem, rfl, hkey⟩
  | biometricLogin k =>
    have hs : (biometricLogin s now k).2 = s := by
      unfold biometricLogin
      cases hf : findByBiometricKey s k with
      | none => rfl
      | some w => rfl
    rw [applyOp, runOp, hs]
    exact ⟨u, hmem, rfl, hkey⟩
  | addBiometricKey uid k =>
    rw [applyOp, runOp, addBiometricKey_eq]
    cases hf : findByBiometricKey s k with
    | some w => exact ⟨u, hmem, rfl, hkey⟩
    | none =>
      cases hid : findById s uid with
      | none => exact ⟨u, hmem, rfl, hkey⟩
      | some w =>
        by_cases hiu : (u.id == uid) = true
        · refine ⟨{ w with biometricKey := some k, updatedAt := now }, ?_, ?_, by simp⟩
          · exact List.mem_map.mpr ⟨u, hmem, by simp [hiu]⟩
          · have hw2 : w.id = uid := (findById_some hid).2
            have hu2 : u.id = uid := by simpa using hiu
            simp [hw2, hu2]
        · refine ⟨u, ?_, rfl, hkey⟩
          exact List.mem_map.mpr ⟨u, hmem, by simp [hiu]⟩

/-- C9 amended witness: after a further register, the enrolled user keeps a
set key. -/
theorem biometricKey_never_removed_witness :
    ∃ v, v ∈ (applyOp demoStoreK 9 (.register "c@x" "q")).users ∧ v.id = demoUserK.id ∧
      v.biometricKey ≠ none :=
  biometricKey_never_removed demoStoreK 9 (.register "c@x" "q") demoUserK (by decide) (by decide)

/-! ## C6: uniqueness invariants in every reachable store -/

theorem login_store_eq (s : Store) (now : Nat) (e p : String) : (login s now e p).2 = s := by
  unfold login
  cases hf : findByEmail s e with
  | none => rfl
  | some w => by_cases hb : bcryptCompare p w.password <;> simp [hb]

theorem biometricLogin_store_eq (s : Store) (now : Nat) (k : String) :
    (biometricLogin s now k).2 = s := by
  unfold biometricLogin
  cases hf : findByBiometricKey s k with
  | none => rfl
  | some w => rfl

theorem fullInv_empty : fullInv emptyStore := by
  refine ⟨?_, ?_, ?_, ?_⟩ <;> simp [emailUnique, keyUnique, idUnique, idsFresh, emptyStore]

theorem fullInv_register (s : Store) (now : Nat) (e p : String) (h : fullInv s) :
    fullInv (register s now e p).2 := by
  rw [register_eq]
  cases hf : findByEmail s e with
  | some u => exact h
  | none =>
    have hne : ∀ x ∈ s.users, ¬ (x.email == e) = true :=
      not_pred_of_find?_none (by simpa [findByEmail] using hf)
    obtain ⟨h1, h2, h3, h4⟩ := h
    refine ⟨?_, ?_, ?_, ?_⟩
    · unfold emailUnique at h1 ⊢
      simp only [List.map_append, List.map_cons, List.map_nil]
      rw [List.nodup_append]
      refine ⟨h1, List.nodup_singleton _, ?_⟩
      intro x hx hy
      simp at hy
      subst hy
      obtain ⟨w, hw, hwe⟩ := List.mem_map.mp hx
      exact hne w hw (by simp [hwe])
    · unfold keyUnique at h2 ⊢
      simp only [List.filterMap_append]
      simpa using h2
    · unfold idUnique at h3 ⊢
      simp only [List.map_append, List.map_cons, List.map_nil]
      rw [List.nodup_append]
      refine ⟨h3, List.nodup_singleton _, ?_⟩
      intro x hx hy
      simp at hy
      subst hy
      obtain ⟨w, hw, hwid⟩ := List.mem_map.mp hx
      obtain ⟨m, hm, hidw⟩ := h4 w hw
      rw [hidw] at hwid
      exact absurd (idOf_inj hwid) (Nat.ne_of_lt hm)
    · intro w hw
      rcases List.mem_append.mp hw with hw | hw
      · obtain ⟨m, hm, hidw⟩ := h4 w hw
        exact ⟨m, Nat.lt_succ_of_lt hm, hidw⟩
      · simp at hw
        subst hw
        exact ⟨s.nextId, Nat.lt_succ_self _, rfl⟩

theorem mem_filterMap_key_update {uid : String} {u2 : User} {l : List User} {y : String}
    (hy : y ∈ (l.map (fun v => if v.id == uid then u2 else v)).filterMap User.biometricKey) :
    u2.biometricKey = some y ∨ y ∈ l.filterMap User.biometricKey := by
  obtain ⟨w, hw, hwy⟩ := List.mem_filterMap.mp hy
  obtain ⟨v, hv, hvw⟩ := List.mem_map.mp hw
  by_cases hvi : (v.id == uid) = true
  · have hw2 : u2 = w := by rw [← hvw]; simp [hvi]
    rw [hw2]
    exact Or.inl hwy
  · have hw2 : v = w := by rw [← hvw]; simp [hvi]
    exact Or.inr (List.mem_filterMap.mpr ⟨v, hv, by rw [hw2]; exact hwy⟩)

theorem nodup_filterMap_key_update {uid k : String} {u2 : User}
    (hk : u2.biometricKey = some k) :
    ∀ l : List User, (∀ v ∈ l, v.biometricKey ≠ some k) →
      (l.map User.id).Nodup → (l.filterMap User.biometricKey).Nodup →
      ((l.map (fun v => if v.id == uid then u2 else v)).filterMap User.biometricKey).Nodup := by
  intro l
  induction l with
  | nil => intro _ _ _; simp
  | cons x xs ih =>
    intro hno hid hold
    rw [List.map_cons, List.nodup_cons] at hid
    have holdtail : (xs.filterMap User.biometricKey).Nodup :=
      hold.sublist ((List.sublist_cons_self x xs).filterMap _)
    simp only [List.map_cons]
    by_cases hxi : (x.id == uid) = true
    · have hxid : x.id = uid := by simpa using hxi
      have htail : xs.map (fun v => if v.id == uid then u2 else v) = xs := by
        refine (List.map_congr_left ?_).trans (List.map_id xs)
        intro v hv
        have hne : ¬ (v.id == uid) = true := by
          simp only [beq_iff_eq]
          intro hcon
          exact hid.1 (List.mem_map.mpr ⟨v, hv, by rw [hcon, hxid]⟩)
        simp [hne]
      rw [htail]
      have hhead : (if (x.id == uid) = true then u2 else x) = u2 := by simp [hxi]
      rw [hhead]
      simp only [List.filterMap_cons, hk]
      rw [List.nodup_cons]
      constructor
      · intro hkmem
        obtain ⟨w, hw, hwk⟩ := List.mem_filterMap.mp hkmem
        exact hno w (List.mem_cons_of_mem _ hw) hwk
      · exact holdtail
    · have hhead : (if (x.id == uid) = true then u2 else x) = x := by simp [hxi]
      rw [hhead]
      have hno' : ∀ v ∈ xs, v.biometricKey ≠ some k :=
        fun v hv => hno v (List.mem_cons_of_mem _ hv)
      have ihx := ih hno' hid.2 holdtail
      cases hxk : x.biometricKey with
      | none => simpa [List.filterMap_cons, hxk] using ihx
      | some k0 =>
        simp only [List.filterMap_cons, hxk]
        rw [List.nodup_cons]
        refine ⟨?_, ihx⟩
        intro hmem
        rcases mem_filterMap_key_update hmem with hcase | hcase
        · rw [hk] at hcase
          have hkk : k = k0 := by simpa using hcase
          exact hno x (List.mem_cons_self _ _) (by rw [hxk, hkk])
        · simp only [List.filterMap_cons, hxk] at hold
          rw [List.nodup_cons] at hold
          exact hold.1 hcase

theorem map_attr_update {β : Type} (attr : User → β) {uid : String} {u2 : User}
    (l : List User)
    (hpt : ∀ v ∈ l, attr (if v.id == uid then u2 else v) = attr v) :
    (l.map (fun v => if v.id == uid then u2 else v)).map attr = l.map attr := by
  rw [List.map_map]
  exact List.map_congr_left hpt

theorem fullInv_addKey (s : Store) (now : Nat) (uid k : String) (h : fullInv s) :
    fullInv (addBiometricKey s now uid k).2 := by
  rw [addBiometricKey_eq]
  cases hf : findByBiometricKey s k with
  | some u => exact h
  | none =>
    cases hid : findById s uid with
    | none => exact h
    | some u =>
      obtain ⟨h1, h2, h3, h4⟩ := h
      have hu := findById_some hid
      have h3n : (s.users.map User.id).Nodup := h3
      have hno : ∀ v ∈ s.users, v.biometricKey ≠ some k := by
        intro v hv
        have hvp := not_pred_of_find?_none
          (p := fun v => v.biometricKey == some k) (by simpa [findByBiometricKey] using hf) v hv
        simpa using hvp
      have hpt : ∀ v ∈ s.users,
          ((if (v.id == uid) = true then { u with biometricKey := some k, updatedAt := now }
            else v).id = v.id ∧
           (if (v.id == uid) = true then { u with biometricKey := some k, updatedAt := now }
            else v).email = v.email) := by
        intro v hv
        by_cases hvi : (v.id == uid) = true
        · have hveq : v = u :=
            List.inj_on_of_nodup_map h3n hv hu.1 (by rw [hu.2]; simpa using hvi)
          subst hveq
          simp [hvi]
        · simp [hvi]
      refine ⟨?_, ?_, ?_, ?_⟩
      · unfold emailUnique at h1 ⊢
        rw [map_attr_update User.email s.users (fun v hv => (hpt v hv).2)]
        exact h1
      · exact nodup_filterMap_key_update rfl s.users hno h3 h2
      · unfold idUnique at h3 ⊢
        rw [map_attr_update User.id s.users (fun v hv => (hpt v hv).1)]
        exact h3
      · intro w hw
        obtain ⟨v, hv, hvw⟩ := List.mem_map.mp hw
        obtain ⟨m, hm, hidv⟩ := h4 v hv
        refine ⟨m, hm, ?_⟩
        rw [← hvw]
        show (if (v.id == uid) = true then { u with biometricKey := some k, updatedAt := now }
          else v).id = idOf m
        rw [(hpt v hv).1, hidv]

theorem fullInv_applyOp (s : Store) (now : Nat) (op : Op) (h : fullInv s) :
    fullInv (applyOp s now op) := by
  cases op with
  | register e p => exact fullInv_register s now e p h
  | login e p =>
    show fullInv (login s now e p).2
    rw [login_store_eq]
    exact h
  | biometricLogin k =>
    show fullInv (biometricLogin s now k).2
    rw [biometricLogin_store_eq]
    exact h
  | addBiometricKey uid k => exact fullInv_addKey s now uid k h

theorem fullInv_execFrom : ∀ (l : List (Nat × Op)) (s : Store), fullInv s → fullInv (execFrom s l)
  | [], _, h => h
  | x :: rest, s, h => fullInv_execFrom rest _ (fullInv_applyOp s x.1 x.2 h)

/-- C6.  Every store reachable from the empty store by a sequence of the
four engine operations has at most one user per email and at most one user
per non-null biometricKey; login and biometricLogin never change the store
at all. -/
theorem reachable_store_uniqueness : ∀ l : List (Nat × Op),
    emailUnique (execOps l) ∧ keyUnique (execOps l) ∧
    (∀ (s : Store) (now : Nat) (e p : String), (login s now e p).2 = s) ∧
    (∀ (s : Store) (now : Nat) (k : String), (biometricLogin s now k).2 = s) := by
  intro l
  have h := fullInv_execFrom l emptyStore fullInv_empty
  exact ⟨h.1, h.2.1, fun s now e p => login_store_eq s now e p,
    fun s now k => biometricLogin_store_eq s now k⟩
